import Mathlib

/-!
Shallow embedding of the affective-analytics simulation engines.

Two engine variants exist in the source:
* the HTTP simulation route (Next.js route handler, file `part_001`):
  weighted-sum Monte Carlo over assumptions, with a seedable mulberry32
  generator and a Box-Muller normal sampler that re-draws on zero uniforms;
* the MCP serverless function (`mcp.js`): hiring-decision Monte Carlo over
  named vars plus a one-at-a-time sensitivity analysis.

Modelling conventions:
* JS numbers are modelled by an arbitrary linear ordered field `K`
  (instantiated at `ℚ` for executable witnesses and at `ℝ` where the
  Box-Muller transcendentals are needed); `NaN` is modelled by the
  distinguished constructor `JsNum.nan` where the source checks for it.
* The uniform random source (`Math.random` or the seeded generator) is an
  explicit stream `ℕ → ℚ` together with a cursor that every draw advances;
  `Math.random` values are IEEE doubles in `[0,1)`, hence exact rationals.
* The Box-Muller normal transform is abstracted as a parameter
  `nf : ℚ → ℚ → K` of the engines (the two consumed uniforms to the
  sample); the concrete real-valued transform `boxMuller` instantiates it.
* The `while (u === 0)` re-draw loop of `randn` is modelled with an
  explicit fuel bound; `none` models non-termination of the JS loop.
-/

namespace Affective

/-- A JS numeric value as far as the engine inspects it: either `NaN`
or an ordinary number. -/
inductive JsNum (K : Type) where
  | nan : JsNum K
  | num : K → JsNum K
deriving DecidableEq

variable {K : Type} [LinearOrderedField K]

/-- Source `clamp` (file `part_001`):
`if (Number.isNaN(n)) return min; return Math.max(min, Math.min(max, n));` -/
def clamp (n : JsNum K) (lo hi : K) : K :=
  match n with
  | JsNum.nan => lo
  | JsNum.num x => max lo (min hi x)

/-- Direction of an assumption, source type `"positive" | "negative"`. -/
inductive Direction where
  | positive : Direction
  | negative : Direction
deriving DecidableEq

/-- Probability label, source values `"LOW" | "MEDIUM" | "HIGH"`. -/
inductive Label where
  | LOW : Label
  | MEDIUM : Label
  | HIGH : Label
deriving DecidableEq

/-- One assumption of the HTTP engine. The numeric fields are optional
(`a.mean ?? 0` etc. in the source) and may be `NaN`; `id` and `name` are
never read by the engine and are omitted. -/
structure Assumption (K : Type) where
  mean : Option (JsNum K)
  std : Option (JsNum K)
  weight : Option (JsNum K)
  direction : Direction
  enabled : Bool
deriving DecidableEq

/-- Effective mean used by the loop: `clamp(Number(a.mean ?? 0), -1e6, 1e6)`. -/
def meanVal (a : Assumption K) : K :=
  clamp (a.mean.getD (JsNum.num 0)) (-1000000) 1000000

/-- Effective std used by the loop: `clamp(Number(a.std ?? 0), 0, 1e6)`. -/
def stdVal (a : Assumption K) : K :=
  clamp (a.std.getD (JsNum.num 0)) 0 1000000

/-- Effective weight used by the loop: `clamp(Number(a.weight ?? 1), 0, 1e6)`. -/
def weightVal (a : Assumption K) : K :=
  clamp (a.weight.getD (JsNum.num 1)) 0 1000000

/-- Sign of an assumption: `a.direction === "negative" ? -1 : 1`. -/
def signVal (a : Assumption K) : K :=
  if a.direction = Direction.negative then -1 else 1

/-- One step of the mulberry32 generator, on exact 32-bit integers.
JS bitwise operators coerce to 32-bit; on unsigned residues mod `2^32`
the JS signed operations (`Math.imul`, `^`, `|`, `+` followed by a
coercion) agree with the operations below. Source:
`t += 0x6D2B79F5; let x = Math.imul(t ^ (t >>> 15), 1 | t);`
`x ^= x + Math.imul(x ^ (x >>> 7), 61 | x);`
`return ((x ^ (x >>> 14)) >>> 0) / 4294967296;` -/
def mb32next (t : ℕ) : ℕ × ℚ :=
  let t1 := (t + 0x6D2B79F5) % 4294967296
  let x1 := (Nat.xor t1 (Nat.shiftRight t1 15) * Nat.lor t1 1) % 4294967296
  let x2 := Nat.xor x1 ((x1 + (Nat.xor x1 (Nat.shiftRight x1 7) * Nat.lor x1 61) % 4294967296) % 4294967296)
  let out := Nat.xor x2 (Nat.shiftRight x2 14)
  (t1, (out : ℚ) / 4294967296)

/-- Internal state of `mulberry32(seed)` after `n` draws; the initial
state is `seed >>> 0`, ToUint32 of the seed. -/
def mbState (seed : ℤ) : ℕ → ℕ
  | 0 => (seed % 4294967296).toNat
  | n + 1 => (mb32next (mbState seed n)).1

/-- Source `mulberry32(seed)` as a deterministic uniform stream:
value of the `n`-th call of the returned closure. -/
def mulberry32 (seed : ℤ) (n : ℕ) : ℚ :=
  (mb32next (mbState seed n)).2

/-- Index of the first stream position at or after `pos` holding a
nonzero value, searching at most `fuel` positions.  This models the
source loop `while (u === 0) u = rng();` (which always draws at least
once, `u` being initialised to `0`). -/
def findNZ (g : ℕ → ℚ) : ℕ → ℕ → Option ℕ
  | 0, _ => none
  | fuel + 1, pos => if g pos ≠ 0 then some pos else findNZ g fuel (pos + 1)

/-- Stream positions consumed by one `randn` call starting at cursor
`pos`: the index of the uniform `u`, the index of the uniform `v`, and
the new cursor. -/
def randnIdx (g : ℕ → ℚ) (fuel pos : ℕ) : Option (ℕ × ℕ × ℕ) :=
  match findNZ g fuel pos with
  | none => none
  | some i =>
    match findNZ g fuel (i + 1) with
    | none => none
    | some j => some (i, j, j + 1)

/-- Source `randn(rng)` with the normal transform abstracted as `nf`
(the concrete transform is `boxMuller` below): draw `u` and `v`,
re-drawing on zero, and apply the transform. -/
def randnNF (nf : ℚ → ℚ → K) (g : ℕ → ℚ) (fuel pos : ℕ) : Option (K × ℕ) :=
  match randnIdx g fuel pos with
  | none => none
  | some (i, j, pos2) => some (nf (g i) (g j), pos2)

/-- Inner loop of the HTTP engine over the enabled assumptions: for each
assumption draw one normal sample and accumulate
`sign * weight * (mean + std * sample)` into the score.  The source
accumulates left to right; field addition is associative and
commutative, so the right fold below computes the same score. -/
def scoreTrial (nf : ℚ → ℚ → K) (g : ℕ → ℚ) (fuel : ℕ) :
    List (Assumption K) → ℕ → Option (K × ℕ)
  | [], pos => some (0, pos)
  | a :: rest, pos =>
    match randnNF nf g fuel pos with
    | none => none
    | some (z, pos1) =>
      match scoreTrial nf g fuel rest pos1 with
      | none => none
      | some (s, pos2) => some (signVal a * weightVal a * (meanVal a + stdVal a * z) + s, pos2)

/-- Contribution of one assumption given its normal draw `z`, exactly the
per-assumption summand of the source loop. -/
def contribution (a : Assumption K) (z : K) : K :=
  signVal a * weightVal a * (meanVal a + stdVal a * z)

/-- List of normal draws consumed by one trial, one per assumption in
order, threading the cursor exactly as `scoreTrial` does. -/
def trialDraws (nf : ℚ → ℚ → K) (g : ℕ → ℚ) (fuel : ℕ) :
    List (Assumption K) → ℕ → Option (List K × ℕ)
  | [], pos => some ([], pos)
  | _ :: rest, pos =>
    match randnNF nf g fuel pos with
    | none => none
    | some (z, pos1) =>
      match trialDraws nf g fuel rest pos1 with
      | none => none
      | some (zs, pos2) => some (z :: zs, pos2)

/-- Outer loop of the HTTP engine: run the given number of trials and
count those with `score > threshold`. -/
def countSuccess (nf : ℚ → ℚ → K) (g : ℕ → ℚ) (fuel : ℕ)
    (as : List (Assumption K)) (threshold : K) : ℕ → ℕ → Option (ℕ × ℕ)
  | 0, pos => some (0, pos)
  | n + 1, pos =>
    match scoreTrial nf g fuel as pos with
    | none => none
    | some (s, pos1) =>
      match countSuccess nf g fuel as threshold n pos1 with
      | none => none
      | some (c, pos2) => some ((if threshold < s then 1 else 0) + c, pos2)

/-- List of the trial scores, threading the cursor exactly as
`countSuccess` does. -/
def trialScores (nf : ℚ → ℚ → K) (g : ℕ → ℚ) (fuel : ℕ)
    (as : List (Assumption K)) : ℕ → ℕ → Option (List K × ℕ)
  | 0, pos => some ([], pos)
  | n + 1, pos =>
    match scoreTrial nf g fuel as pos with
    | none => none
    | some (s, pos1) =>
      match trialScores nf g fuel as n pos1 with
      | none => none
      | some (ss, pos2) => some (s :: ss, pos2)

/-- Request body of the HTTP route.  `assumptions` models
`Array.isArray(body.assumptions) ? body.assumptions : []` after the
array check; absent numeric fields are `none` (the source applies
`?? 20000` and `?? 0`); `seed` is present exactly when
`typeof body.seed === "number"`. -/
structure SimBody (K : Type) where
  assumptions : List (Assumption K)
  iterations : Option (JsNum K)
  threshold : Option (JsNum K)
  seed : Option ℤ
deriving DecidableEq

/-- Source `clamp(Math.floor(body.iterations ?? 20000), 1000, 300000)`,
as a natural number (the clamped value is an integer in
`[1000, 300000]`). -/
def iterOf [FloorRing K] (it : Option (JsNum K)) : ℕ :=
  match it.getD (JsNum.num 20000) with
  | JsNum.nan => 1000
  | JsNum.num x => (max 1000 (min 300000 ⌊x⌋)).toNat

/-- Source `clamp(Number(body.threshold ?? 0), -1000, 1000)`. -/
def thresholdOf (body : SimBody K) : K :=
  clamp (body.threshold.getD (JsNum.num 0)) (-1000) 1000

/-- Source label: `p < 0.33 ? "LOW" : p < 0.66 ? "MEDIUM" : "HIGH"`.
The probability `p = success / iterations` is an exact rational; for
every reachable `p` (denominator at most `300000`) the comparison with
the exact cut points `33/100` and `66/100` agrees with the JS float
comparison against the doubles nearest `0.33` and `0.66`. -/
def labelOf (p : ℚ) : Label :=
  if p < 33 / 100 then Label.LOW else if p < 66 / 100 then Label.MEDIUM else Label.HIGH

/-- Response of the HTTP route. -/
structure SimResponse (K : Type) where
  iterations : ℕ
  probabilitySuccess : ℚ
  label : Label
  threshold : K
  enabledCount : ℕ
deriving DecidableEq

/-- Uniform source selected by the route:
`typeof body.seed === "number" ? mulberry32(body.seed) : Math.random`.
`sysRandom` is the ambient nondeterministic `Math.random` stream. -/
def rngOf (seed : Option ℤ) (sysRandom : ℕ → ℚ) : ℕ → ℚ :=
  match seed with
  | some s => mulberry32 s
  | none => sysRandom

/-- The HTTP route handler `POST` of `part_001`, from the clamping of
the request fields to the JSON response.  `none` models divergence of
the `randn` re-draw loop (a stream of zeros), which never happens for
the real uniform sources. -/
def POST (nf : ℚ → ℚ → K) [FloorRing K] (sysRandom : ℕ → ℚ) (fuel : ℕ)
    (body : SimBody K) : Option (SimResponse K) :=
  let iterations := iterOf body.iterations
  let threshold := thresholdOf body
  let enabled := body.assumptions.filter (fun a => a.enabled)
  let g := rngOf body.seed sysRandom
  match countSuccess nf g fuel enabled threshold iterations 0 with
  | none => none
  | some (success, _) =>
    let p : ℚ := (success : ℚ) / (iterations : ℚ)
    some { iterations := iterations, probabilitySuccess := p, label := labelOf p,
           threshold := threshold, enabledCount := enabled.length }

/-- One variable of the MCP engine (`mcp.js`): `{base, min, max}`
(the optional `label` is never read by the engine). -/
structure VarConfig (K : Type) where
  base : K
  min : K
  max : K
deriving DecidableEq

/-- Result record of `runSimulation` in `mcp.js`. -/
structure Stats (K : Type) where
  mean : K
  median : K
  p10 : K
  p90 : K
  prob_positive : K
deriving DecidableEq

/-- One row of the sensitivity analysis.  The source field `variable` is
a Lean keyword and is rendered `varName` here. -/
structure Row (K : Type) where
  varName : String
  base : K
  min : K
  max : K
  outcome_at_low : K
  outcome_at_high : K
  impact_percent : K
deriving DecidableEq

/-- Source `outcomes.sort((a, b) => a - b)`: numeric ascending sort.
Insertion sort produces the unique stable ascending reordering. -/
def sortAsc (l : List K) : List K :=
  List.insertionSort (fun a b => a ≤ b) l

/-- The hardcoded hiring-decision formula of `mcp.js` applied to one
trial's samples.  A variable name absent from `samples` is `undefined`
in JS and poisons the outcome with `NaN`; the model returns the junk
value `0` for a missing name (the claims never depend on outcomes of
runs with missing vars). -/
def hiringOutcome (samples : List (String × K)) : K :=
  let s := fun name => ((samples.lookup name).getD 0)
  let cost := s "salary" * s "benefits_multiplier"
  let projects := 20 * s "utilization_rate"
  let effective := projects * (3 / 4) + projects * (1 / 4) * s "ramp_up_discount"
  let revenue := effective * s "project_win_rate" * s "avg_project_value"
  revenue - cost

/-- Per-trial sampling loop of `mcp.js` `runSimulation`: for each
variable draw two raw uniforms (no zero re-draw), apply the normal
transform `nf`, derive `std = (max - min) / 4`, and clamp the sample
into `[min, max]` via `Math.max(min, Math.min(max, base + z * std))`. -/
def sampleVars (nf : ℚ → ℚ → K) (g : ℕ → ℚ) :
    List (String × VarConfig K) → ℕ → List (String × K) × ℕ
  | [], pos => ([], pos)
  | (name, c) :: rest, pos =>
    let z := nf (g pos) (g (pos + 1))
    let std := (c.max - c.min) / 4
    let sample := max c.min (min c.max (c.base + z * std))
    let r := sampleVars nf g rest (pos + 2)
    ((name, sample) :: r.1, r.2)

/-- Outer loop of `mcp.js` `runSimulation`: collect the `n` trial
outcomes in order, threading the uniform cursor. -/
def runTrials (nf : ℚ → ℚ → K) (g : ℕ → ℚ)
    (vars : List (String × VarConfig K)) : ℕ → ℕ → List K × ℕ
  | 0, pos => ([], pos)
  | n + 1, pos =>
    let s := sampleVars nf g vars pos
    let r := runTrials nf g vars n s.2
    (hiringOutcome s.1 :: r.1, r.2)

/-- Source `runSimulation(vars, n)` of `mcp.js`.  The source sorts
`outcomes` in place and then computes the mean by `outcomes.reduce`;
sorting does not change the sum, so the mean is taken over the
unsorted list here.  `Math.floor(n / 2)`, `Math.floor(n * 0.1)` and
`Math.floor(n * 0.9)` are the natural-number divisions `n / 2`,
`n / 10` and `9 * n / 10`. -/
def runSimulation (nf : ℚ → ℚ → K) (g : ℕ → ℚ)
    (vars : List (String × VarConfig K)) (n pos : ℕ) : Stats K × ℕ :=
  let r := runTrials nf g vars n pos
  let sorted := sortAsc r.1
  ({ mean := r.1.sum / (n : K),
     median := sorted.getD (n / 2) 0,
     p10 := sorted.getD (n / 10) 0,
     p90 := sorted.getD (9 * n / 10) 0,
     prob_positive := ((r.1.countP (fun x => decide (0 < x))) : K) / (n : K) }, r.2)

/-- Source `{ ...vars, [name]: { ...config, base: b } }`: the
object spread keeps insertion order and overwrites the entry named
`name` in place (object keys are unique). -/
def setBase (vars : List (String × VarConfig K)) (name : String) (b : K) :
    List (String × VarConfig K) :=
  vars.map fun p => if p.1 = name then (p.1, { p.2 with base := b }) else p

/-- The `map` body of `sensitivity` in `mcp.js`, iterating over
`Object.entries(vars)` in order (`todo` is the remaining suffix of
the entries; the full `vars` is what `low` and `high` are built
from).  Both 5000-trial runs of each variable consume the shared global
uniform stream in evaluation order, hence the threaded cursor. -/
def sensitivityRows (nf : ℚ → ℚ → K) (g : ℕ → ℚ)
    (vars : List (String × VarConfig K)) (baseResults : Stats K) :
    List (String × VarConfig K) → ℕ → List (Row K) × ℕ
  | [], pos => ([], pos)
  | (name, config) :: todo, pos =>
    let low := setBase vars name config.min
    let high := setBase vars name config.max
    let resLow := runSimulation nf g low 5000 pos
    let resHigh := runSimulation nf g high 5000 resLow.2
    let impact := |(resHigh.1.mean - resLow.1.mean) / baseResults.mean * 100|
    let row : Row K :=
      { varName := name, base := config.base, min := config.min, max := config.max,
        outcome_at_low := resLow.1.mean, outcome_at_high := resHigh.1.mean,
        impact_percent := impact }
    let rest := sensitivityRows nf g vars baseResults todo resHigh.2
    (row :: rest.1, rest.2)

/-- Descending comparison on rows used by the source sort
`.sort((a, b) => b.impact_percent - a.impact_percent)`. -/
def rowGE (a b : Row K) : Prop :=
  b.impact_percent ≤ a.impact_percent

instance : DecidableRel (rowGE (K := K)) :=
  fun a b => inferInstanceAs (Decidable (b.impact_percent ≤ a.impact_percent))

instance : IsTotal (Row K) rowGE :=
  ⟨fun a b => le_total b.impact_percent a.impact_percent⟩

instance : IsTrans (Row K) rowGE :=
  ⟨fun _ _ _ h1 h2 => le_trans h2 h1⟩

/-- Source `sensitivity(vars, baseResults)`: map each variable to
its row, then sort descending by `impact_percent`.  JS `Array.sort` is
stable; insertion sort with the non-strict descending relation is the
unique stable order consistent with the comparator. -/
def sensitivity (nf : ℚ → ℚ → K) (g : ℕ → ℚ)
    (vars : List (String × VarConfig K)) (baseResults : Stats K)
    (pos : ℕ) : List (Row K) × ℕ :=
  let rows := sensitivityRows nf g vars baseResults vars pos
  (List.insertionSort rowGE rows.1, rows.2)

/-- The JS floating-point value of the source expression
`Math.abs((h - l) / b * 100)` (line 47 of `mcp.js`), exposing the IEEE
division-by-zero behaviour that the field model `K` cannot represent:
for `b = 0` the quotient is `NaN` when `h = l` and `±Infinity`
otherwise; multiplication by `100` preserves this and `Math.abs` maps
both infinities to `+Infinity`. -/
inductive JsVal (K : Type) where
  | nan : JsVal K
  | inf : JsVal K
  | num : K → JsVal K
deriving DecidableEq

/-- JS value of `Math.abs((h - l) / b * 100)`. -/
def impactJs (h l b : K) : JsVal K :=
  if b = 0 then (if h = l then JsVal.nan else JsVal.inf)
  else JsVal.num (|(h - l) / b * 100|)

/-- Building of the `tools/call` summary text in the MCP handler.  The
template literal evaluates its earlier interpolations (rounded bucket
values, probability) without throwing; `sens[0].variable` then throws a
`TypeError` exactly when `sens` is empty (`sens[0]` is `undefined`).
The numeric formatting is abstracted to a fixed rendering; only the
throw-vs-return control flow is relevant to the handler status. -/
def buildText (decision_name : String) (sens : List (Row K)) : Except String String :=
  match sens.head? with
  | none => Except.error "TypeError: Cannot read properties of undefined"
  | some top => Except.ok (decision_name ++ " most sensitive: " ++ top.varName)

/-- Outcome of the MCP handler on a `tools/call` of `analyze_decision`:
HTTP status and the `isError` flag of the JSON body. -/
structure HandlerResponse where
  status : ℕ
  isError : Bool
deriving DecidableEq

/-- The `analyze_decision` branch of the `tools/call` handler in
`mcp.js`, including the surrounding `try`/`catch`: run the base
simulation (default `n = 10000`), run the sensitivity analysis, build
the text; a throw inside the `try` block is converted to the status-500
`{error, isError: true}` response. -/
def analyzeDecision (nf : ℚ → ℚ → K) (g : ℕ → ℚ) (decision_name : String)
    (vars : List (String × VarConfig K)) (pos : ℕ) : HandlerResponse :=
  let base := runSimulation nf g vars 10000 pos
  let sens := sensitivity nf g vars base.1 base.2
  match buildText decision_name sens.1 with
  | Except.ok _ => { status := 200, isError := false }
  | Except.error _ => { status := 500, isError := true }

/-- The concrete Box-Muller transform of both engines:
`Math.sqrt(-2 * Math.log(u)) * Math.cos(2 * Math.PI * v)`.  The
transcendental functions are not computable in exact real arithmetic,
so this instantiation of the abstract transform `nf` is noncomputable. -/
noncomputable def boxMuller (u v : ℚ) : ℝ :=
  Real.sqrt (-2 * Real.log (u : ℝ)) * Real.cos (2 * Real.pi * (v : ℝ))

/-! Shared lemmas about the HTTP engine. -/

theorem clamp_nan (lo hi : K) : clamp JsNum.nan lo hi = lo := rfl

theorem clamp_mem (n : JsNum K) {lo hi : K} (h : lo ≤ hi) :
    lo ≤ clamp n lo hi ∧ clamp n lo hi ≤ hi := by
  cases n with
  | nan => exact ⟨le_refl _, h⟩
  | num x => exact ⟨le_max_left _ _, max_le h (min_le_left _ _)⟩

theorem iterOf_bounds [FloorRing K] (it : Option (JsNum K)) :
    1000 ≤ iterOf it ∧ iterOf it ≤ 300000 := by
  unfold iterOf
  cases it.getD (JsNum.num 20000) with
  | nan => norm_num
  | num x =>
    dsimp only
    have h1 : (1000 : ℤ) ≤ max 1000 (min 300000 ⌊x⌋) := le_max_left _ _
    have h2 : max 1000 (min 300000 ⌊x⌋) ≤ (300000 : ℤ) :=
      max_le (by norm_num) (min_le_left _ _)
    omega

theorem iterOf_nan [FloorRing K] : iterOf (K := K) (some JsNum.nan) = 1000 := rfl

theorem findNZ_spec {g : ℕ → ℚ} :
    ∀ {fuel pos i : ℕ}, findNZ g fuel pos = some i → pos ≤ i ∧ g i ≠ 0 := by
  intro fuel
  induction fuel with
  | zero => intro pos i h; simp [findNZ] at h
  | succ n ih =>
    intro pos i h
    by_cases hg : g pos = 0
    · simp only [findNZ, hg, ne_eq, not_true_eq_false, if_false] at h
      rcases ih h with ⟨h1, h2⟩
      exact ⟨le_trans (Nat.le_succ pos) h1, h2⟩
    · simp only [findNZ, hg, ne_eq, not_false_eq_true, if_true, Option.some.injEq] at h
      subst h
      exact ⟨le_refl _, hg⟩

theorem randnIdx_spec {g : ℕ → ℚ} {fuel pos i j p2 : ℕ}
    (h : randnIdx g fuel pos = some (i, j, p2)) :
    pos ≤ i ∧ i < j ∧ p2 = j + 1 ∧ g i ≠ 0 ∧ g j ≠ 0 := by
  unfold randnIdx at h
  cases hu : findNZ g fuel pos with
  | none => simp only [hu] at h; exact Option.noConfusion h
  | some i0 =>
    simp only [hu] at h
    cases hv : findNZ g fuel (i0 + 1) with
    | none => simp only [hv] at h; exact Option.noConfusion h
    | some j0 =>
      simp only [hv, Option.some.injEq, Prod.mk.injEq] at h
      obtain ⟨rfl, rfl, hp⟩ := h
      rcases findNZ_spec hu with ⟨hi1, hi2⟩
      rcases findNZ_spec hv with ⟨hj1, hj2⟩
      exact ⟨hi1, Nat.lt_of_succ_le hj1, hp.symm, hi2, hj2⟩

theorem scoreTrial_draws {nf : ℚ → ℚ → K} {g : ℕ → ℚ} {fuel : ℕ} :
    ∀ {as : List (Assumption K)} {pos p2 : ℕ} {sc : K},
      scoreTrial nf g fuel as pos = some (sc, p2) →
      ∃ zs : List K, trialDraws nf g fuel as pos = some (zs, p2) ∧
        zs.length = as.length ∧ sc = (List.zipWith contribution as zs).sum := by
  intro as
  induction as with
  | nil =>
    intro pos p2 sc h
    simp only [scoreTrial, Option.some.injEq, Prod.mk.injEq] at h
    obtain ⟨h1, h2⟩ := h
    exact ⟨[], by simp [trialDraws, h2], by simp, by simp [h1.symm]⟩
  | cons a rest ih =>
    intro pos p2 sc h
    simp only [scoreTrial] at h
    cases hr : randnNF nf g fuel pos with
    | none => simp only [hr] at h; exact Option.noConfusion h
    | some zp =>
      obtain ⟨z, pos1⟩ := zp
      simp only [hr] at h
      cases hs : scoreTrial nf g fuel rest pos1 with
      | none => simp only [hs] at h; exact Option.noConfusion h
      | some sp =>
        obtain ⟨s2, pos2⟩ := sp
        simp only [hs, Option.some.injEq, Prod.mk.injEq] at h
        obtain ⟨hsc, hpos⟩ := h
        rcases ih hs with ⟨zs, hd, hlen, hsum⟩
        refine ⟨z :: zs, ?_, by simp [hlen], ?_⟩
        · simp only [trialDraws, hr, hpos ▸ hd]
        · simp only [List.zipWith_cons_cons, List.sum_cons, ← hsc, hsum, contribution]

theorem countSuccess_scores {nf : ℚ → ℚ → K} {g : ℕ → ℚ} {fuel : ℕ}
    {as : List (Assumption K)} {th : K} :
    ∀ {n pos c p2 : ℕ}, countSuccess nf g fuel as th n pos = some (c, p2) →
      ∃ ss : List K, trialScores nf g fuel as n pos = some (ss, p2) ∧
        ss.length = n ∧ c = ss.countP (fun s => decide (th < s)) := by
  intro n
  induction n with
  | zero =>
    intro pos c p2 h
    simp only [countSuccess, Option.some.injEq, Prod.mk.injEq] at h
    obtain ⟨h1, h2⟩ := h
    exact ⟨[], by simp [trialScores, h2], rfl, by simp [h1.symm]⟩
  | succ m ih =>
    intro pos c p2 h
    simp only [countSuccess] at h
    cases hs : scoreTrial nf g fuel as pos with
    | none => simp only [hs] at h; exact Option.noConfusion h
    | some sp =>
      obtain ⟨s, pos1⟩ := sp
      simp only [hs] at h
      cases hc : countSuccess nf g fuel as th m pos1 with
      | none => simp only [hc] at h; exact Option.noConfusion h
      | some cp =>
        obtain ⟨c2, pos2⟩ := cp
        simp only [hc, Option.some.injEq, Prod.mk.injEq] at h
        obtain ⟨h1, h2⟩ := h
        rcases ih hc with ⟨ss, hts, hlen, hcnt⟩
        refine ⟨s :: ss, ?_, by simp [hlen], ?_⟩
        · simp only [trialScores, hs, h2 ▸ hts]
        · subst h1
          rw [List.countP_cons, hcnt]
          by_cases hth : th < s <;> simp [hth, Nat.add_comm]

theorem findNZ_total {g : ℕ → ℚ} (hg : ∀ n, g n ≠ 0) (pos : ℕ) :
    findNZ g 1 pos = some pos := by
  simp [findNZ, hg pos]

theorem randnNF_total (nf : ℚ → ℚ → K) {g : ℕ → ℚ} (hg : ∀ n, g n ≠ 0) (pos : ℕ) :
    randnNF nf g 1 pos = some (nf (g pos) (g (pos + 1)), pos + 2) := by
  simp [randnNF, randnIdx, findNZ_total hg]

theorem scoreTrial_total (nf : ℚ → ℚ → K) {g : ℕ → ℚ} (hg : ∀ n, g n ≠ 0) :
    ∀ (as : List (Assumption K)) (pos : ℕ),
      ∃ s : K, scoreTrial nf g 1 as pos = some (s, pos + 2 * as.length) := by
  intro as
  induction as with
  | nil => intro pos; exact ⟨0, by simp [scoreTrial]⟩
  | cons a rest ih =>
    intro pos
    rcases ih (pos + 2) with ⟨s, hs⟩
    refine ⟨signVal a * weightVal a * (meanVal a + stdVal a * nf (g pos) (g (pos + 1))) + s, ?_⟩
    have harith : pos + 2 + 2 * rest.length = pos + 2 * (a :: rest).length := by
      simp [List.length_cons]; ring
    simp only [scoreTrial, randnNF_total nf hg, hs, ← harith]

theorem countSuccess_total (nf : ℚ → ℚ → K) {g : ℕ → ℚ} (hg : ∀ n, g n ≠ 0)
    (as : List (Assumption K)) (th : K) :
    ∀ (n pos : ℕ), ∃ c : ℕ,
      countSuccess nf g 1 as th n pos = some (c, pos + 2 * as.length * n) := by
  intro n
  induction n with
  | zero => intro pos; exact ⟨0, by simp [countSuccess]⟩
  | succ m ih =>
    intro pos
    rcases scoreTrial_total nf hg as pos with ⟨s, hs⟩
    rcases ih (pos + 2 * as.length) with ⟨c, hc⟩
    refine ⟨(if th < s then 1 else 0) + c, ?_⟩
    have harith : pos + 2 * as.length + 2 * as.length * m = pos + 2 * as.length * (m + 1) := by
      ring
    simp only [countSuccess, hs, harith ▸ hc]

theorem POST_some {nf : ℚ → ℚ → K} [FloorRing K] {g : ℕ → ℚ} {fuel : ℕ}
    {body : SimBody K} {r : SimResponse K}
    (h : POST nf g fuel body = some r) :
    ∃ c p2 : ℕ, countSuccess nf (rngOf body.seed g) fuel
        (body.assumptions.filter (fun a => a.enabled)) (thresholdOf body)
        (iterOf body.iterations) 0 = some (c, p2) ∧
      r.iterations = iterOf body.iterations ∧
      r.probabilitySuccess = (c : ℚ) / (iterOf body.iterations : ℚ) ∧
      r.label = labelOf r.probabilitySuccess ∧
      r.threshold = thresholdOf body ∧
      r.enabledCount = (body.assumptions.filter (fun a => a.enabled)).length := by
  simp only [POST] at h
  cases hc : countSuccess nf (rngOf body.seed g) fuel
      (body.assumptions.filter (fun a => a.enabled)) (thresholdOf body)
      (iterOf body.iterations) 0 with
  | none => simp only [hc] at h; exact Option.noConfusion h
  | some cp =>
    obtain ⟨c, p2⟩ := cp
    simp only [hc, Option.some.injEq] at h
    exact ⟨c, p2, rfl, by rw [← h], by rw [← h], by rw [← h], by rw [← h], by rw [← h]⟩

/-! Claim theorems for the HTTP engine, with concrete witness fixtures. -/

/-- Witness normal transform: an arbitrary concrete instance of `nf`. -/
def nfW : ℚ → ℚ → ℚ := fun u v => u + v

/-- Witness uniform stream, everywhere nonzero. -/
def gW : ℕ → ℚ := fun _ => 1 / 2

/-- Second witness uniform stream, distinct from `gW`. -/
def gW2 : ℕ → ℚ := fun _ => 1 / 3

/-- Witness assumption: enabled, mean 1, std 0, weight 2, positive. -/
def aW : Assumption ℚ :=
  { mean := some (JsNum.num 1), std := some (JsNum.num 0),
    weight := some (JsNum.num 2), direction := Direction.positive, enabled := true }

/-- Witness assumption: disabled. -/
def aDis : Assumption ℚ :=
  { mean := some (JsNum.num 5), std := some (JsNum.num 1),
    weight := some (JsNum.num 1), direction := Direction.negative, enabled := false }

/-- Witness request body: one enabled and one disabled assumption,
1000 iterations, default threshold, no seed. -/
def bodyC1 : SimBody ℚ :=
  { assumptions := [aW, aDis], iterations := some (JsNum.num 1000),
    threshold := none, seed := none }

/-- Witness request body: no assumptions, 1000 iterations, no seed. -/
def bodyW : SimBody ℚ :=
  { assumptions := [], iterations := some (JsNum.num 1000),
    threshold := none, seed := none }

/-- Witness request body with a seed. -/
def bodyS : SimBody ℚ :=
  { assumptions := [aW], iterations := some (JsNum.num 1000),
    threshold := none, seed := some 42 }

/-- C1: for every simulation request, each trial's score is the sum over
the enabled assumptions of `sign * weight * (mean + std * z)` with one
fresh normal draw `z` per assumption per trial (the draws of a trial
come from strictly increasing stream positions); disabled assumptions
contribute nothing to the score (filtering them away leaves the
response unchanged) and are excluded from the reported `enabledCount`. -/
theorem claim_C1 [FloorRing K] :
    (∀ (nf : ℚ → ℚ → K) (g : ℕ → ℚ) (fuel : ℕ) (body : SimBody K),
       POST nf g fuel body =
         POST nf g fuel { body with assumptions := body.assumptions.filter (fun a => a.enabled) }) ∧
    (∀ (nf : ℚ → ℚ → K) (g : ℕ → ℚ) (fuel : ℕ) (body : SimBody K) (r : SimResponse K),
       POST nf g fuel body = some r →
       r.enabledCount = (body.assumptions.filter (fun a => a.enabled)).length) ∧
    (∀ (nf : ℚ → ℚ → K) (g : ℕ → ℚ) (fuel : ℕ) (as : List (Assumption K)) (pos p2 : ℕ) (sc : K),
       scoreTrial nf g fuel as pos = some (sc, p2) →
       ∃ zs : List K, trialDraws nf g fuel as pos = some (zs, p2) ∧
         zs.length = as.length ∧ sc = (List.zipWith contribution as zs).sum) ∧
    (∀ (g : ℕ → ℚ) (fuel pos i j p2 : ℕ),
       randnIdx g fuel pos = some (i, j, p2) → pos ≤ i ∧ i < j ∧ j < p2) := by
  refine ⟨?_, ?_, ?_, ?_⟩
  · intro nf g fuel body
    simp [POST, thresholdOf, iterOf, List.filter_filter]
  · intro nf g fuel body r h
    rcases POST_some h with ⟨c, p2, _, _, _, _, _, hcount⟩
    exact hcount
  · intro nf g fuel as pos p2 sc h
    exact scoreTrial_draws h
  · intro g fuel pos i j p2 h
    rcases randnIdx_spec h with ⟨h1, h2, h3, _, _⟩
    exact ⟨h1, h2, by omega⟩

/-- Witness response of the request `bodyC1`: its one enabled assumption
scores `2 > 0` in every trial. -/
def rC1 : SimResponse ℚ :=
  { iterations := 1000, probabilitySuccess := 1, label := Label.HIGH,
    threshold := 0, enabledCount := 1 }

/-- The witness stream `gW` is everywhere nonzero. -/
theorem gW_ne (n : ℕ) : gW n ≠ 0 := by norm_num [gW]

/-- With the constant stream `gW`, the singleton list `[aW]` scores
exactly `2` in every trial. -/
theorem scoreTrial_aW (pos : ℕ) :
    scoreTrial nfW gW 1 [aW] pos = some ((2 : ℚ), pos + 2) := by
  have hr := randnNF_total nfW gW_ne pos
  simp only [scoreTrial, hr]
  norm_num [nfW, gW, aW, meanVal, stdVal, weightVal, signVal, clamp, max_def, min_def]
  decide

/-- A request whose per-trial score is the constant `s0` succeeds in
every trial or in none, depending on `threshold < s0`. -/
theorem countSuccess_const (nf : ℚ → ℚ → K) (th : K) {g : ℕ → ℚ} {fuel : ℕ}
    {as : List (Assumption K)} {s0 : K} {k : ℕ}
    (h : ∀ pos, scoreTrial nf g fuel as pos = some (s0, pos + k)) :
    ∀ n pos, countSuccess nf g fuel as th n pos
      = some (if th < s0 then n else 0, pos + k * n) := by
  intro n
  induction n with
  | zero => intro pos; simp [countSuccess]
  | succ m ih =>
    intro pos
    simp only [countSuccess, h pos, ih (pos + k)]
    by_cases hth : th < s0
    · simp only [if_pos hth, Option.some.injEq, Prod.mk.injEq]
      exact ⟨by omega, by ring⟩
    · simp only [if_neg hth, Option.some.injEq, Prod.mk.injEq]
      exact ⟨by simp, by ring⟩

/-- Evaluation of the route on the witness request `bodyC1`. -/
theorem POST_bodyC1 : POST nfW gW 1 bodyC1 = some rC1 := by
  have hfilter : List.filter (fun a => a.enabled) bodyC1.assumptions = [aW] := by
    simp [bodyC1, aW, aDis]
  have hiter : iterOf (K := ℚ) bodyC1.iterations = 1000 := by
    simp only [bodyC1, iterOf, Option.getD_some]
    norm_num [max_def, min_def, Int.toNat_ofNat]
    decide
  have hth : thresholdOf bodyC1 = (0 : ℚ) := by
    simp only [bodyC1, thresholdOf, Option.getD_none, clamp]
    norm_num [max_def, min_def]
  have hrng : rngOf bodyC1.seed gW = gW := rfl
  have hc := countSuccess_const nfW (0 : ℚ) scoreTrial_aW 1000 0
  norm_num at hc
  simp only [POST, hfilter, hiter, hth, hrng, hc]
  norm_num [rC1, labelOf]

/-- Witness for C1 at concrete inputs: the per-trial decomposition at a
singleton assumption list, the `enabledCount` exclusion at a request
with a disabled assumption, and the freshness of the draw positions. -/
theorem claim_C1_witness :
    (scoreTrial nfW gW 1 [aW] 0 = some (2, 2) ∧
      ∃ zs : List ℚ, trialDraws nfW gW 1 [aW] 0 = some (zs, 2) ∧
        zs.length = [aW].length ∧ (2 : ℚ) = (List.zipWith contribution [aW] zs).sum) ∧
    (POST nfW gW 1 bodyC1 = some rC1 ∧
      rC1.enabledCount = (bodyC1.assumptions.filter (fun a => a.enabled)).length) ∧
    (randnIdx gW 1 0 = some (0, 1, 2) ∧ 0 ≤ 0 ∧ 0 < 1 ∧ 1 < 2) := by
  have hsc : scoreTrial nfW gW 1 [aW] 0 = some ((2 : ℚ), 0 + 2) := scoreTrial_aW 0
  have hri : randnIdx gW 1 0 = some (0, 1, 2) := by
    norm_num [randnIdx, findNZ, gW]
  exact ⟨⟨hsc, (claim_C1 (K := ℚ)).2.2.1 nfW gW 1 [aW] 0 2 2 hsc⟩,
    ⟨POST_bodyC1, (claim_C1 (K := ℚ)).2.1 nfW gW 1 bodyC1 rC1 POST_bodyC1⟩,
    ⟨hri, (claim_C1 (K := ℚ)).2.2.2 gW 1 0 0 1 2 hri⟩⟩

/-- C2: for every request on which the route returns, the returned
`probabilitySuccess` is `count / iterations` where `count` is the
number of trial scores strictly above the threshold, it lies in
`[0, 1]`, and the label is the deterministic function of it with cut
points `p < 0.33 -> LOW`, `p < 0.66 -> MEDIUM`, else `HIGH`; in
particular exactly `0.33` gives MEDIUM and exactly `0.66` gives HIGH. -/
theorem claim_C2 [FloorRing K] :
    ∀ (nf : ℚ → ℚ → K) (g : ℕ → ℚ) (fuel : ℕ) (body : SimBody K) (r : SimResponse K),
      POST nf g fuel body = some r →
      0 ≤ r.probabilitySuccess ∧ r.probabilitySuccess ≤ 1 ∧
      r.label = labelOf r.probabilitySuccess ∧
      labelOf (33 / 100) = Label.MEDIUM ∧ labelOf (66 / 100) = Label.HIGH ∧
      (∀ q : ℚ, q < 33 / 100 → labelOf q = Label.LOW) ∧
      (∀ q : ℚ, 33 / 100 ≤ q → q < 66 / 100 → labelOf q = Label.MEDIUM) ∧
      (∀ q : ℚ, 66 / 100 ≤ q → labelOf q = Label.HIGH) ∧
      ∃ (ss : List K) (p2 : ℕ),
        trialScores nf (rngOf body.seed g) fuel
          (body.assumptions.filter (fun a => a.enabled)) (iterOf body.iterations) 0
          = some (ss, p2) ∧
        ss.length = iterOf body.iterations ∧
        r.probabilitySuccess =
          ((ss.countP (fun s => decide (thresholdOf body < s)) : ℕ) : ℚ) /
            ((iterOf body.iterations : ℕ) : ℚ) := by
  intro nf g fuel body r h
  rcases POST_some h with ⟨c, p2, hc, hiter, hp, hlabel, hth, hcount⟩
  rcases countSuccess_scores hc with ⟨ss, hts, hlen, hcnt⟩
  have hn : (1000 : ℕ) ≤ iterOf body.iterations := (iterOf_bounds body.iterations).1
  have hnpos : (0 : ℚ) < ((iterOf body.iterations : ℕ) : ℚ) := by
    have : (0 : ℕ) < iterOf body.iterations := lt_of_lt_of_le (by norm_num) hn
    exact_mod_cast this
  have hcle : c ≤ iterOf body.iterations := by
    rw [hcnt, ← hlen]
    exact List.countP_le_length _
  refine ⟨?_, ?_, hlabel, by norm_num [labelOf], by norm_num [labelOf], ?_, ?_, ?_, ss, p2, hts, hlen, ?_⟩
  · rw [hp]
    positivity
  · rw [hp]
    rw [div_le_one hnpos]
    exact_mod_cast hcle
  · intro q hq
    simp [labelOf, hq]
  · intro q hq1 hq2
    simp [labelOf, not_lt.mpr hq1, hq2]
  · intro q hq
    have h1 : ¬ q < 33 / 100 := by
      refine not_lt.mpr (le_trans (by norm_num) hq)
    have h2 : ¬ q < 66 / 100 := not_lt.mpr hq
    simp [labelOf, h1, h2]
  · rw [hp, hcnt]

/-- Witness response for C2 and C8: the empty-assumption request with
1000 iterations scores `0` in every trial, so no trial beats the
threshold `0`. -/
def rW : SimResponse ℚ :=
  { iterations := 1000, probabilitySuccess := 0, label := Label.LOW,
    threshold := 0, enabledCount := 0 }

/-- Evaluation of the route on the witness request `bodyW`: the enabled
list is empty, every trial scores `0`, which does not beat threshold `0`. -/
theorem POST_bodyW : POST nfW gW 1 bodyW = some rW := by
  have hfilter : List.filter (fun a => a.enabled) bodyW.assumptions = ([] : List (Assumption ℚ)) := by
    simp [bodyW]
  have hiter : iterOf (K := ℚ) bodyW.iterations = 1000 := by
    simp only [bodyW, iterOf, Option.getD_some]
    norm_num [max_def, min_def, Int.toNat_ofNat]
    decide
  have hth : thresholdOf bodyW = (0 : ℚ) := by
    simp only [bodyW, thresholdOf, Option.getD_none, clamp]
    norm_num [max_def, min_def]
  have hrng : rngOf bodyW.seed gW = gW := rfl
  have h0 : ∀ pos, scoreTrial nfW gW 1 ([] : List (Assumption ℚ)) pos
      = some ((0 : ℚ), pos + 0) := by
    intro pos
    simp [scoreTrial]
  have hc := countSuccess_const nfW (0 : ℚ) h0 1000 0
  norm_num at hc
  simp only [POST, hfilter, hiter, hth, hrng, hc]
  norm_num [rW, labelOf]

/-- Witness for C2 at a concrete request. -/
theorem claim_C2_witness :
    POST nfW gW 1 bodyW = some rW ∧
    (0 ≤ rW.probabilitySuccess ∧ rW.probabilitySuccess ≤ 1 ∧
      rW.label = labelOf rW.probabilitySuccess ∧
      labelOf (33 / 100) = Label.MEDIUM ∧ labelOf (66 / 100) = Label.HIGH ∧
      (∀ q : ℚ, q < 33 / 100 → labelOf q = Label.LOW) ∧
      (∀ q : ℚ, 33 / 100 ≤ q → q < 66 / 100 → labelOf q = Label.MEDIUM) ∧
      (∀ q : ℚ, 66 / 100 ≤ q → labelOf q = Label.HIGH) ∧
      ∃ (ss : List ℚ) (p2 : ℕ),
        trialScores nfW (rngOf bodyW.seed gW) 1
          (bodyW.assumptions.filter (fun a => a.enabled)) (iterOf bodyW.iterations) 0
          = some (ss, p2) ∧
        ss.length = iterOf bodyW.iterations ∧
        rW.probabilitySuccess =
          ((ss.countP (fun s => decide (thresholdOf bodyW < s)) : ℕ) : ℚ) /
            ((iterOf bodyW.iterations : ℕ) : ℚ)) :=
  ⟨POST_bodyW, claim_C2 nfW gW 1 bodyW rW POST_bodyW⟩

/-- C3: when the request carries a numeric seed, the route's result does
not depend on the ambient `Math.random` source at all: two runs with
the same seed, assumptions, iteration count and threshold produce the
identical response (in particular the identical `probabilitySuccess`),
because the uniform source is then the deterministic `mulberry32`
stream of the seed. -/
theorem claim_C3 [FloorRing K] :
    ∀ (nf : ℚ → ℚ → K) (g1 g2 : ℕ → ℚ) (fuel : ℕ) (body : SimBody K) (s : ℤ),
      body.seed = some s →
      POST nf g1 fuel body = POST nf g2 fuel body ∧
      rngOf body.seed g1 = mulberry32 s := by
  intro nf g1 g2 fuel body s hs
  constructor
  · simp [POST, rngOf, hs]
  · simp [rngOf, hs]

/-- Witness for C3: a seeded request compared under two different
ambient streams. -/
theorem claim_C3_witness :
    bodyS.seed = some 42 ∧
    (POST nfW gW 1 bodyS = POST nfW gW2 1 bodyS ∧
      rngOf bodyS.seed gW = mulberry32 42) :=
  ⟨rfl, claim_C3 nfW gW gW2 1 bodyS 42 rfl⟩

/-- C8: no numeric field of a request is ever rejected: the route
returns a response for every body (whenever its uniform source is
nonzero, so the re-draw loop terminates), with `iterations` clamped
into `[1000, 300000]`, `threshold` into `[-1000, 1000]`, each
assumption's effective mean into `[-1e6, 1e6]`, std and weight into
`[0, 1e6]`, and `NaN` in any field mapped to the range's minimum. -/
theorem claim_C8 [FloorRing K] :
    ∀ (nf : ℚ → ℚ → K) (g : ℕ → ℚ) (body : SimBody K),
      (∀ n, rngOf body.seed g n ≠ 0) →
      (∃ r : SimResponse K, POST nf g 1 body = some r ∧
        1000 ≤ r.iterations ∧ r.iterations ≤ 300000 ∧
        -1000 ≤ r.threshold ∧ r.threshold ≤ 1000) ∧
      iterOf (K := K) (some JsNum.nan) = 1000 ∧
      (∀ lo hi : K, clamp JsNum.nan lo hi = lo) ∧
      (∀ a : Assumption K,
        -1000000 ≤ meanVal a ∧ meanVal a ≤ 1000000 ∧
        0 ≤ stdVal a ∧ stdVal a ≤ 1000000 ∧
        0 ≤ weightVal a ∧ weightVal a ≤ 1000000) ∧
      (∀ a : Assumption K, a.mean = some JsNum.nan → meanVal a = -1000000) ∧
      (∀ a : Assumption K, a.std = some JsNum.nan → stdVal a = 0) ∧
      (∀ a : Assumption K, a.weight = some JsNum.nan → weightVal a = 0) := by
  intro nf g body hg
  refine ⟨?_, rfl, fun lo hi => rfl, ?_, ?_, ?_, ?_⟩
  · rcases countSuccess_total nf hg (body.assumptions.filter (fun a => a.enabled))
      (thresholdOf body) (iterOf body.iterations) 0 with ⟨c, hc⟩
    refine ⟨{ iterations := iterOf body.iterations,
              probabilitySuccess := (c : ℚ) / ((iterOf body.iterations : ℕ) : ℚ),
              label := labelOf ((c : ℚ) / ((iterOf body.iterations : ℕ) : ℚ)),
              threshold := thresholdOf body,
              enabledCount := (body.assumptions.filter (fun a => a.enabled)).length },
      ?_, (iterOf_bounds body.iterations).1, (iterOf_bounds body.iterations).2,
      (clamp_mem _ (by norm_num)).1, (clamp_mem _ (by norm_num)).2⟩
    simp only [POST, hc]
  · intro a
    refine ⟨(clamp_mem _ (by norm_num)).1, (clamp_mem _ (by norm_num)).2,
      (clamp_mem _ (by norm_num)).1, (clamp_mem _ (by norm_num)).2,
      (clamp_mem _ (by norm_num)).1, (clamp_mem _ (by norm_num)).2⟩
  · intro a ha
    simp [meanVal, ha, clamp]
  · intro a ha
    simp [stdVal, ha, clamp]
  · intro a ha
    simp [weightVal, ha, clamp]

/-- Witness for C8 at a concrete unseeded request (the stream is the
constant `1/2`, nonzero). -/
theorem claim_C8_witness :
    (∀ n, rngOf bodyW.seed gW n ≠ 0) ∧
    ((∃ r : SimResponse ℚ, POST nfW gW 1 bodyW = some r ∧
        1000 ≤ r.iterations ∧ r.iterations ≤ 300000 ∧
        -1000 ≤ r.threshold ∧ r.threshold ≤ 1000) ∧
      iterOf (K := ℚ) (some JsNum.nan) = 1000 ∧
      (∀ lo hi : ℚ, clamp JsNum.nan lo hi = lo) ∧
      (∀ a : Assumption ℚ,
        -1000000 ≤ meanVal a ∧ meanVal a ≤ 1000000 ∧
        0 ≤ stdVal a ∧ stdVal a ≤ 1000000 ∧
        0 ≤ weightVal a ∧ weightVal a ≤ 1000000) ∧
      (∀ a : Assumption ℚ, a.mean = some JsNum.nan → meanVal a = -1000000) ∧
      (∀ a : Assumption ℚ, a.std = some JsNum.nan → stdVal a = 0) ∧
      (∀ a : Assumption ℚ, a.weight = some JsNum.nan → weightVal a = 0)) :=
  ⟨fun n => by norm_num [rngOf, bodyW, gW],
    claim_C8 nfW gW bodyW (fun n => by norm_num [rngOf, bodyW, gW])⟩

/-! Shared lemmas about the MCP engine. -/

theorem runTrials_length {nf : ℚ → ℚ → K} {g : ℕ → ℚ}
    {vars : List (String × VarConfig K)} :
    ∀ n pos, (runTrials nf g vars n pos).1.length = n := by
  intro n
  induction n with
  | zero => intro pos; simp [runTrials]
  | succ m ih => intro pos; simp [runTrials, ih]

theorem sortAsc_length (l : List K) : (sortAsc l).length = l.length :=
  (List.perm_insertionSort _ l).length_eq

theorem sortAsc_sorted (l : List K) :
    List.Sorted (fun a b : K => a ≤ b) (sortAsc l) :=
  List.sorted_insertionSort _ l

theorem sortAsc_getD_mono {l : List K} {i j : ℕ} (hij : i ≤ j)
    (hj : j < (sortAsc l).length) :
    (sortAsc l).getD i 0 ≤ (sortAsc l).getD j 0 := by
  have hs := sortAsc_sorted l
  have hi : i < (sortAsc l).length := lt_of_le_of_lt hij hj
  rw [List.getD_eq_getElem?_getD, List.getD_eq_getElem?_getD,
    List.getElem?_eq_getElem hi, List.getElem?_eq_getElem hj]
  exact hs.rel_get_of_le (a := ⟨i, hi⟩) (b := ⟨j, hj⟩) hij

/-- C4: every percentile-mode run over `n >= 1` trials sorts the `n`
outcomes ascending and reports `mean = sum/n`,
`median = sorted[floor(n/2)]`, `p10 = sorted[floor(n*0.1)]`,
`p90 = sorted[floor(n*0.9)]` by floor-index truncation, and
`prob_positive = count(outcome > 0)/n`; consequently
`p10 <= median <= p90` holds for every run. -/
theorem claim_C4 :
    ∀ (nf : ℚ → ℚ → K) (g : ℕ → ℚ) (vars : List (String × VarConfig K)) (n pos : ℕ),
      1 ≤ n →
      (runSimulation nf g vars n pos).2 = (runTrials nf g vars n pos).2 ∧
      (runTrials nf g vars n pos).1.length = n ∧
      (runSimulation nf g vars n pos).1.mean
        = (runTrials nf g vars n pos).1.sum / (n : K) ∧
      (runSimulation nf g vars n pos).1.median
        = (sortAsc (runTrials nf g vars n pos).1).getD (n / 2) 0 ∧
      (runSimulation nf g vars n pos).1.p10
        = (sortAsc (runTrials nf g vars n pos).1).getD (n / 10) 0 ∧
      (runSimulation nf g vars n pos).1.p90
        = (sortAsc (runTrials nf g vars n pos).1).getD (9 * n / 10) 0 ∧
      (runSimulation nf g vars n pos).1.prob_positive
        = (((runTrials nf g vars n pos).1.countP (fun x => decide (0 < x)) : ℕ) : K) / (n : K) ∧
      List.Sorted (fun a b : K => a ≤ b) (sortAsc (runTrials nf g vars n pos).1) ∧
      (runSimulation nf g vars n pos).1.p10 ≤ (runSimulation nf g vars n pos).1.median ∧
      (runSimulation nf g vars n pos).1.median ≤ (runSimulation nf g vars n pos).1.p90 := by
  intro nf g vars n pos hn
  have hlen : (runTrials nf g vars n pos).1.length = n := runTrials_length n pos
  have hslen : (sortAsc (runTrials nf g vars n pos).1).length = n := by
    rw [sortAsc_length, hlen]
  have h12 : n / 10 ≤ n / 2 := by omega
  have h29 : n / 2 ≤ 9 * n / 10 := by omega
  have h9n : 9 * n / 10 < n := by omega
  refine ⟨rfl, hlen, rfl, rfl, rfl, rfl, rfl, sortAsc_sorted _, ?_, ?_⟩
  · exact sortAsc_getD_mono h12 (by rw [hslen]; exact lt_of_le_of_lt h29 h9n)
  · exact sortAsc_getD_mono h29 (by rw [hslen]; exact h9n)

/-- Witness variable set for the MCP engine. -/
def varsW : List (String × VarConfig ℚ) :=
  [("salary", { base := 1, min := 0, max := 2 })]

/-- Witness for C4 at a concrete one-trial run. -/
theorem claim_C4_witness :
    (1 : ℕ) ≤ 1 ∧
    ((runSimulation nfW gW varsW 1 0).2 = (runTrials nfW gW varsW 1 0).2 ∧
      (runTrials nfW gW varsW 1 0).1.length = 1 ∧
      (runSimulation nfW gW varsW 1 0).1.mean
        = (runTrials nfW gW varsW 1 0).1.sum / (1 : ℚ) ∧
      (runSimulation nfW gW varsW 1 0).1.median
        = (sortAsc (runTrials nfW gW varsW 1 0).1).getD (1 / 2) 0 ∧
      (runSimulation nfW gW varsW 1 0).1.p10
        = (sortAsc (runTrials nfW gW varsW 1 0).1).getD (1 / 10) 0 ∧
      (runSimulation nfW gW varsW 1 0).1.p90
        = (sortAsc (runTrials nfW gW varsW 1 0).1).getD (9 * 1 / 10) 0 ∧
      (runSimulation nfW gW varsW 1 0).1.prob_positive
        = (((runTrials nfW gW varsW 1 0).1.countP (fun x => decide (0 < x)) : ℕ) : ℚ) / (1 : ℚ) ∧
      List.Sorted (fun a b : ℚ => a ≤ b) (sortAsc (runTrials nfW gW varsW 1 0).1) ∧
      (runSimulation nfW gW varsW 1 0).1.p10 ≤ (runSimulation nfW gW varsW 1 0).1.median ∧
      (runSimulation nfW gW varsW 1 0).1.median ≤ (runSimulation nfW gW varsW 1 0).1.p90) :=
  ⟨le_refl 1, claim_C4 nfW gW varsW 1 0 (le_refl 1)⟩

/-- Stability of the descending insertion sort: the sublist of rows
with any fixed `impact_percent` value is unchanged by sorting. -/
theorem orderedInsert_filter_key (x : Row K) (l : List (Row K)) (k : K) :
    (List.orderedInsert rowGE x l).filter (fun r => decide (r.impact_percent = k))
      = if x.impact_percent = k
          then x :: l.filter (fun r => decide (r.impact_percent = k))
          else l.filter (fun r => decide (r.impact_percent = k)) := by
  induction l with
  | nil =>
    by_cases hx : x.impact_percent = k <;>
      simp [List.orderedInsert, List.filter, hx]
  | cons y ys ih =>
    by_cases hxy : rowGE x y
    · rw [List.orderedInsert_of_le rowGE ys hxy]
      by_cases hx : x.impact_percent = k <;> simp [List.filter, hx]
    · have hlt : x.impact_percent < y.impact_percent := lt_of_not_le hxy
      simp only [List.orderedInsert, if_neg hxy]
      by_cases hy : y.impact_percent = k
      · have hx : ¬ x.impact_percent = k := by
          intro hx
          exact absurd (hx ▸ hy ▸ hlt) (lt_irrefl _)
        rw [List.filter_cons_of_pos (by simp [hy]), ih, if_neg hx,
          List.filter_cons_of_pos (by simp [hy]), if_neg hx]
      · rw [List.filter_cons_of_neg (by simp [hy]), ih,
          List.filter_cons_of_neg (by simp [hy])]

theorem insertionSort_filter_key (l : List (Row K)) (k : K) :
    (List.insertionSort rowGE l).filter (fun r => decide (r.impact_percent = k))
      = l.filter (fun r => decide (r.impact_percent = k)) := by
  induction l with
  | nil => rfl
  | cons x xs ih =>
    simp only [List.insertionSort]
    rw [orderedInsert_filter_key]
    by_cases hx : x.impact_percent = k
    · rw [if_pos hx, ih, List.filter_cons_of_pos (by simp [hx])]
    · rw [if_neg hx, ih, List.filter_cons_of_neg (by simp [hx])]

theorem sensitivityRows_map_varName (nf : ℚ → ℚ → K) (g : ℕ → ℚ)
    (vars : List (String × VarConfig K)) (base : Stats K) :
    ∀ (todo : List (String × VarConfig K)) (pos : ℕ),
      (sensitivityRows nf g vars base todo pos).1.map (fun r => r.varName)
        = todo.map Prod.fst := by
  intro todo
  induction todo with
  | nil => intro pos; simp [sensitivityRows]
  | cons v rest ih =>
    intro pos
    obtain ⟨name, c⟩ := v
    simp only [sensitivityRows, List.map_cons, List.map]
    rw [ih]

theorem sensitivityRows_length (nf : ℚ → ℚ → K) (g : ℕ → ℚ)
    (vars : List (String × VarConfig K)) (base : Stats K)
    (todo : List (String × VarConfig K)) (pos : ℕ) :
    (sensitivityRows nf g vars base todo pos).1.length = todo.length := by
  have h := sensitivityRows_map_varName nf g vars base todo pos
  have := congrArg List.length h
  simpa using this

/-- C6: the sensitivity analyzer returns one row per variable (the rows
in original variable order, one per entry of the input), sorted
descending by `impact_percent`; ties are broken by the original
variable order: the sorted output is a permutation of the rows whose
sublist at any fixed impact value is exactly that of the unsorted
rows (stable sort). -/
theorem claim_C6 :
    ∀ (nf : ℚ → ℚ → K) (g : ℕ → ℚ) (vars : List (String × VarConfig K))
      (base : Stats K) (pos : ℕ),
      (sensitivity nf g vars base pos).1
        = List.insertionSort rowGE (sensitivityRows nf g vars base vars pos).1 ∧
      (sensitivity nf g vars base pos).1.length = vars.length ∧
      (sensitivityRows nf g vars base vars pos).1.map (fun r => r.varName)
        = vars.map Prod.fst ∧
      List.Perm (sensitivity nf g vars base pos).1
        (sensitivityRows nf g vars base vars pos).1 ∧
      List.Sorted rowGE (sensitivity nf g vars base pos).1 ∧
      (∀ k : K, (sensitivity nf g vars base pos).1.filter
          (fun r => decide (r.impact_percent = k))
        = (sensitivityRows nf g vars base vars pos).1.filter
          (fun r => decide (r.impact_percent = k))) := by
  intro nf g vars base pos
  refine ⟨rfl, ?_, sensitivityRows_map_varName nf g vars base vars pos, ?_, ?_, ?_⟩
  · have := (List.perm_insertionSort rowGE
      (sensitivityRows nf g vars base vars pos).1).length_eq
    rw [show (sensitivity nf g vars base pos).1
        = List.insertionSort rowGE (sensitivityRows nf g vars base vars pos).1 from rfl,
      this, sensitivityRows_length]
  · exact List.perm_insertionSort rowGE _
  · exact List.sorted_insertionSort rowGE _
  · intro k
    exact insertionSort_filter_key _ k

/-- C10: a `tools/call` of `analyze_decision` with an empty `variables`
object makes the sensitivity list empty, so building the summary text
dereferences `sens[0].variable` on `undefined`, the thrown `TypeError`
is caught, and the handler returns the 500 `{error, isError: true}`
response. -/
theorem claim_C10 :
    ∀ (nf : ℚ → ℚ → K) (g : ℕ → ℚ) (decision_name : String) (pos : ℕ),
      analyzeDecision nf g decision_name [] pos
        = { status := 500, isError := true } := by
  intro nf g d pos
  simp [analyzeDecision, sensitivity, sensitivityRows, buildText]

/-! Zero-spread runs: when every variable has `min = max`, the clamp
pins every sample to that constant, so every trial has the same
outcome, whatever the uniform stream and the normal transform. -/

theorem sampleVars_zero_spread {nf : ℚ → ℚ → K} {g : ℕ → ℚ} :
    ∀ (vars : List (String × VarConfig K)) (pos : ℕ),
      (∀ p ∈ vars, p.2.min = p.2.max) →
      sampleVars nf g vars pos
        = (vars.map (fun p => (p.1, p.2.min)), pos + 2 * vars.length) := by
  intro vars
  induction vars with
  | nil => intro pos h; simp [sampleVars]
  | cons v rest ih =>
    intro pos h
    obtain ⟨name, c⟩ := v
    have hc : c.min = c.max := h (name, c) (by simp)
    have hsample : max c.min (min c.max
        (c.base + nf (g pos) (g (pos + 1)) * ((c.max - c.min) / 4))) = c.min := by
      rw [← hc, sub_self, zero_div, mul_zero, add_zero]
      exact max_eq_left (min_le_left _ _)
    have hrest := ih (pos + 2) (fun p hp => h p (List.mem_cons_of_mem _ hp))
    simp only [sampleVars, hsample, hrest, List.map_cons, List.length_cons,
      Prod.mk.injEq]
    exact ⟨trivial, by ring⟩

theorem runTrials_zero_spread {nf : ℚ → ℚ → K} {g : ℕ → ℚ}
    {vars : List (String × VarConfig K)} (h : ∀ p ∈ vars, p.2.min = p.2.max) :
    ∀ (n pos : ℕ), runTrials nf g vars n pos
      = (List.replicate n (hiringOutcome (vars.map (fun p => (p.1, p.2.min)))),
         pos + 2 * vars.length * n) := by
  intro n
  induction n with
  | zero => intro pos; simp [runTrials]
  | succ m ih =>
    intro pos
    simp only [runTrials, sampleVars_zero_spread vars pos h, ih (pos + 2 * vars.length),
      List.replicate_succ, Prod.mk.injEq]
    exact ⟨trivial, by ring⟩

theorem runSimulation_mean_zero_spread (nf : ℚ → ℚ → K) (g : ℕ → ℚ)
    {vars : List (String × VarConfig K)} (h : ∀ p ∈ vars, p.2.min = p.2.max)
    (n pos : ℕ) (hn : (n : K) ≠ 0) :
    (runSimulation nf g vars n pos).1.mean
      = hiringOutcome (vars.map (fun p => (p.1, p.2.min))) := by
  simp only [runSimulation, runTrials_zero_spread h n pos, List.sum_replicate,
    nsmul_eq_mul]
  exact mul_div_cancel_left₀ _ hn

theorem runSimulation_pos_zero_spread {nf : ℚ → ℚ → K} {g : ℕ → ℚ}
    {vars : List (String × VarConfig K)} (h : ∀ p ∈ vars, p.2.min = p.2.max)
    (n pos : ℕ) :
    (runSimulation nf g vars n pos).2 = pos + 2 * vars.length * n := by
  simp only [runSimulation, runTrials_zero_spread h n pos]

theorem setBase_map_min (vars : List (String × VarConfig K)) (name : String) (b : K) :
    (setBase vars name b).map (fun p => (p.1, p.2.min))
      = vars.map (fun p => (p.1, p.2.min)) := by
  simp only [setBase, List.map_map]
  refine List.map_congr_left ?_
  intro p _
  by_cases hp : p.1 = name <;> simp [hp]

theorem setBase_zero_spread {vars : List (String × VarConfig K)}
    (h : ∀ p ∈ vars, p.2.min = p.2.max) (name : String) (b : K) :
    ∀ p ∈ setBase vars name b, p.2.min = p.2.max := by
  intro p hp
  simp only [setBase, List.mem_map] at hp
  obtain ⟨q, hq, hpq⟩ := hp
  by_cases hqn : q.1 = name
  · rw [if_pos hqn] at hpq
    rw [← hpq]
    exact h q hq
  · rw [if_neg hqn] at hpq
    rw [← hpq]
    exact h q hq

theorem setBase_length (vars : List (String × VarConfig K)) (name : String) (b : K) :
    (setBase vars name b).length = vars.length := by
  simp [setBase]

theorem sensitivityRows_zero_spread {nf : ℚ → ℚ → K} {g : ℕ → ℚ}
    {vars : List (String × VarConfig K)} {base : Stats K}
    (h : ∀ p ∈ vars, p.2.min = p.2.max) :
    ∀ (todo : List (String × VarConfig K)) (pos : ℕ),
      ∀ row ∈ (sensitivityRows nf g vars base todo pos).1,
        row.outcome_at_low = hiringOutcome (vars.map (fun p => (p.1, p.2.min))) ∧
        row.outcome_at_high = hiringOutcome (vars.map (fun p => (p.1, p.2.min))) ∧
        row.impact_percent = 0 := by
  intro todo
  induction todo with
  | nil => intro pos row hrow; simp [sensitivityRows] at hrow
  | cons v rest ih =>
    intro pos row hrow
    obtain ⟨name, c⟩ := v
    have hlow := runSimulation_mean_zero_spread nf g
      (setBase_zero_spread h name c.min) 5000 pos (by norm_num)
    rw [setBase_map_min] at hlow
    simp only [sensitivityRows, List.mem_cons] at hrow
    rcases hrow with hrow | hrow
    · subst hrow
      have hhigh := runSimulation_mean_zero_spread nf g
        (setBase_zero_spread h name c.max) 5000
        ((runSimulation nf g (setBase vars name c.min) 5000 pos).2) (by norm_num)
      rw [setBase_map_min] at hhigh
      refine ⟨hlow, hhigh, ?_⟩
      simp only [hlow, hhigh, sub_self, zero_div, zero_mul, abs_zero]
    · exact ih _ row hrow

/-- C7 (amended): a zero-spread variable's sample is pinned to its
constant; when every variable is zero-spread (so both scenario runs of
every variable are the deterministic base run) and `baseResult.mean`
is nonzero, every row has `impact_percent = 0` and the sorted output
keeps the original variable order (stable tie-breaking). -/
theorem claim_C7_amended :
    ∀ (nf : ℚ → ℚ → K) (g : ℕ → ℚ) (vars : List (String × VarConfig K))
      (base : Stats K) (pos : ℕ),
      (∀ p ∈ vars, p.2.min = p.2.max) → base.mean ≠ 0 →
      (∀ row ∈ (sensitivity nf g vars base pos).1, row.impact_percent = 0) ∧
      (sensitivity nf g vars base pos).1
        = (sensitivityRows nf g vars base vars pos).1 := by
  intro nf g vars base pos h hbase
  have hall : ∀ row ∈ (sensitivityRows nf g vars base vars pos).1,
      row.impact_percent = 0 :=
    fun row hrow => (sensitivityRows_zero_spread h vars pos row hrow).2.2
  have hsorteq : List.insertionSort rowGE (sensitivityRows nf g vars base vars pos).1
      = (sensitivityRows nf g vars base vars pos).1 := by
    generalize hrows : (sensitivityRows nf g vars base vars pos).1 = rows at hall
    clear hrows
    induction rows with
    | nil => rfl
    | cons x xs ih =>
      simp only [List.insertionSort]
      rw [ih (fun r hr => hall r (List.mem_cons_of_mem _ hr))]
      cases xs with
      | nil => rfl
      | cons y ys =>
        refine List.orderedInsert_of_le rowGE ys ?_
        show y.impact_percent ≤ x.impact_percent
        rw [hall x (by simp), hall y (by simp)]
  constructor
  · intro row hrow
    have : row ∈ (sensitivityRows nf g vars base vars pos).1 := by
      have hperm := List.perm_insertionSort rowGE
        (sensitivityRows nf g vars base vars pos).1
      exact hperm.mem_iff.mp hrow
    exact hall row this
  · exact hsorteq

/-- Witness fixture for the amended C7: two zero-spread variables. -/
def varsW7 : List (String × VarConfig ℚ) :=
  [("salary", { base := 100, min := 100, max := 100 }),
   ("avg_project_value", { base := 5, min := 5, max := 5 })]

/-- Witness base statistics with nonzero mean. -/
def baseW7 : Stats ℚ :=
  { mean := 7, median := 7, p10 := 7, p90 := 7, prob_positive := 1 }

/-- Witness for the amended C7. -/
theorem claim_C7_amended_witness :
    (∀ p ∈ varsW7, p.2.min = p.2.max) ∧ baseW7.mean ≠ 0 ∧
    ((∀ row ∈ (sensitivity nfW gW varsW7 baseW7 0).1, row.impact_percent = 0) ∧
      (sensitivity nfW gW varsW7 baseW7 0).1
        = (sensitivityRows nfW gW varsW7 baseW7 varsW7 0).1) := by
  have h1 : ∀ p ∈ varsW7, p.2.min = p.2.max := by
    intro p hp
    simp only [varsW7, List.mem_cons, List.mem_singleton] at hp
    rcases hp with rfl | rfl | hp
    · rfl
    · rfl
    · simp at hp
  have h2 : baseW7.mean ≠ 0 := by norm_num [baseW7]
  exact ⟨h1, h2, claim_C7_amended nfW gW varsW7 baseW7 0 h1 h2⟩

/-- A uniform stream on which `Math.random` returns `0` on its first
call (a value `Math.random` can produce, its range being `[0, 1)`). -/
def gZero : ℕ → ℚ := fun n => if n = 0 then 0 else 1 / 2

/-- C9: the HTTP sampler `randn` (file `part_001`) draws its two
uniforms strictly nonzero, re-drawing on zero, so `Math.log` is never
applied to `0` and the sample is `sqrt(-2 ln u) * cos(2 pi v)`; the
MCP sampler in `mcp.js`, however, draws `u1 = Math.random()` with no
re-draw and hands it to the same transform, so on the stream `gZero`
the transform (for the real code, `boxMuller`, hence `Math.log`)
receives the uniform `0`. -/
theorem claim_C9 :
    (∀ (g : ℕ → ℚ) (fuel pos i j p2 : ℕ),
        randnIdx g fuel pos = some (i, j, p2) → g i ≠ 0 ∧ g j ≠ 0) ∧
    (∀ (nf : ℚ → ℚ → ℝ) (c : VarConfig ℝ),
        (sampleVars nf gZero [("x", c)] 0).1
          = [("x", max c.min (min c.max
              (c.base + nf 0 (1 / 2) * ((c.max - c.min) / 4))))]) ∧
    gZero 0 = 0 ∧
    boxMuller = fun (u v : ℚ) =>
      Real.sqrt (-2 * Real.log (u : ℝ)) * Real.cos (2 * Real.pi * (v : ℝ)) := by
  refine ⟨?_, ?_, rfl, rfl⟩
  · intro g fuel pos i j p2 h
    rcases randnIdx_spec h with ⟨_, _, _, hi, hj⟩
    exact ⟨hi, hj⟩
  · intro nf c
    simp [sampleVars, gZero]

/-- Witness for C9: the nonzero-uniform guarantee of `randn` applied at
a concrete stream and cursor. -/
theorem claim_C9_witness :
    randnIdx gW 1 0 = some (0, 1, 2) ∧ (gW 0 ≠ 0 ∧ gW 1 ≠ 0) := by
  have h : randnIdx gW 1 0 = some (0, 1, 2) := by
    norm_num [randnIdx, findNZ, gW]
  exact ⟨h, claim_C9.1 gW 1 0 0 1 2 h⟩

/-- C5 (amended): with `baseResult.mean = 0` the sensitivity division
raises no exception, but its IEEE value is `NaN` when the two scenario
means coincide and `+Infinity` when they differ; it is never a finite
number, in particular never `0`. -/
theorem claim_C5_amended :
    ∀ (h l b : K), b = 0 →
      (h = l → impactJs h l b = JsVal.nan) ∧
      (h ≠ l → impactJs h l b = JsVal.inf) ∧
      (∀ x : K, impactJs h l b ≠ JsVal.num x) := by
  intro h l b hb
  subst hb
  refine ⟨?_, ?_, ?_⟩
  · intro hhl
    simp [impactJs, hhl]
  · intro hhl
    simp [impactJs, hhl]
  · intro x hx
    by_cases hhl : h = l <;> simp [impactJs, hhl] at hx

/-- Witness for the amended C5. -/
theorem claim_C5_amended_witness :
    (0 : ℚ) = 0 ∧
    (((1 : ℚ) = 0 → impactJs (1 : ℚ) 0 0 = JsVal.nan) ∧
      ((1 : ℚ) ≠ 0 → impactJs (1 : ℚ) 0 0 = JsVal.inf) ∧
      (∀ x : ℚ, impactJs (1 : ℚ) 0 0 ≠ JsVal.num x)) :=
  ⟨rfl, claim_C5_amended 1 0 0 rfl⟩

/-- Counterexample fixture: six zero-spread variables whose
deterministic outcome is exactly `0`, so the base run has mean `0` and
both scenario runs of every variable have equal means. -/
def varsZ : List (String × VarConfig ℝ) :=
  [("salary", { base := 100, min := 100, max := 100 }),
   ("benefits_multiplier", { base := 1, min := 1, max := 1 }),
   ("utilization_rate", { base := 1, min := 1, max := 1 }),
   ("ramp_up_discount", { base := 1, min := 1, max := 1 }),
   ("project_win_rate", { base := 1, min := 1, max := 1 }),
   ("avg_project_value", { base := 5, min := 5, max := 5 })]

theorem varsZ_zero_spread : ∀ p ∈ varsZ, p.2.min = p.2.max := by
  intro p hp
  simp only [varsZ, List.mem_cons, List.mem_singleton] at hp
  rcases hp with rfl | rfl | rfl | rfl | rfl | rfl | hp
  · rfl
  · rfl
  · rfl
  · rfl
  · rfl
  · rfl
  · simp at hp

theorem varsZ_outcome :
    hiringOutcome (varsZ.map (fun p => (p.1, p.2.min))) = (0 : ℝ) := by
  simp only [varsZ, List.map_cons, List.map_nil]
  simp [hiringOutcome, List.lookup]
  norm_num

/-- Counterexample for C5: the sensitivity analysis of `varsZ` under
the real Box-Muller engine has `baseResult.mean = 0`, and the IEEE
value of the first row's `impact_percent` expression is `NaN` - which
is neither `0` nor an infinite sentinel. -/
theorem claim_C5_counterexample :
    (runSimulation boxMuller gW varsZ 10000 0).1.mean = 0 ∧
    ((sensitivityRows boxMuller gW varsZ (runSimulation boxMuller gW varsZ 10000 0).1
        varsZ ((runSimulation boxMuller gW varsZ 10000 0).2)).1.head?.map
      (fun r => impactJs r.outcome_at_high r.outcome_at_low
        (runSimulation boxMuller gW varsZ 10000 0).1.mean)) = some JsVal.nan ∧
    (JsVal.nan : JsVal ℝ) ≠ JsVal.num 0 ∧ (JsVal.nan : JsVal ℝ) ≠ JsVal.inf := by
  have hZ := varsZ_zero_spread
  have hmean : (runSimulation boxMuller gW varsZ 10000 0).1.mean = 0 := by
    rw [runSimulation_mean_zero_spread boxMuller gW hZ 10000 0 (by norm_num), varsZ_outcome]
  refine ⟨hmean, ?_, by simp, by simp⟩
  obtain ⟨row, hrow⟩ : ∃ row,
      (sensitivityRows boxMuller gW varsZ (runSimulation boxMuller gW varsZ 10000 0).1
        varsZ ((runSimulation boxMuller gW varsZ 10000 0).2)).1.head? = some row := by
    have hlen := sensitivityRows_length boxMuller gW varsZ
      (runSimulation boxMuller gW varsZ 10000 0).1 varsZ
      ((runSimulation boxMuller gW varsZ 10000 0).2)
    cases hrows : (sensitivityRows boxMuller gW varsZ
        (runSimulation boxMuller gW varsZ 10000 0).1 varsZ
        ((runSimulation boxMuller gW varsZ 10000 0).2)).1 with
    | nil => rw [hrows] at hlen; simp [varsZ] at hlen
    | cons r rs => exact ⟨r, rfl⟩
  have hmem : row ∈ (sensitivityRows boxMuller gW varsZ
      (runSimulation boxMuller gW varsZ 10000 0).1 varsZ
      ((runSimulation boxMuller gW varsZ 10000 0).2)).1 :=
    List.mem_of_mem_head? (Option.mem_def.mpr hrow)
  rcases sensitivityRows_zero_spread hZ varsZ _ row hmem with ⟨hlo, hhi, _⟩
  rw [hrow, Option.map_some', hlo, hhi, varsZ_outcome, hmean]
  simp [impactJs]

/-! Counterexample machinery for C7: a zero-spread variable whose two
scenario runs consume different segments of the uniform stream, while
another variable has spread, gives the zero-spread variable a nonzero
`impact_percent`. -/

/-- A possible `Math.random` stream: the first 60000 draws alternate
`1/2, 1/4` (every Box-Muller `v` is `1/4`, so every normal is `0`),
the following draws alternate `1/8, 0` (every normal is
`sqrt(6 ln 2) >= 2`). -/
def gC7 : ℕ → ℚ := fun n =>
  if n < 60000 then (if n % 2 = 0 then 1 / 2 else 1 / 4)
  else (if n % 2 = 0 then 1 / 8 else 0)

theorem gC7_low_odd {n : ℕ} (h2 : n % 2 = 1) (h : n < 60000) : gC7 n = 1 / 4 := by
  simp [gC7, h, h2]

theorem gC7_high_even {n : ℕ} (h2 : n % 2 = 0) (h : 60000 ≤ n) : gC7 n = 1 / 8 := by
  simp [gC7, Nat.not_lt.mpr h, h2]

theorem gC7_high_odd {n : ℕ} (h2 : n % 2 = 1) (h : 60000 ≤ n) : gC7 n = 0 := by
  simp [gC7, Nat.not_lt.mpr h, h2]

/-- Box-Muller with `v = 1/4` is `cos(pi/2) = 0`, whatever `u`. -/
theorem boxMuller_quarter (u : ℚ) : boxMuller u (1 / 4) = 0 := by
  unfold boxMuller
  have hq : 2 * Real.pi * (((1 : ℚ) / 4 : ℚ) : ℝ) = Real.pi / 2 := by
    push_cast
    ring
  rw [hq, Real.cos_pi_div_two, mul_zero]

/-- Box-Muller with `u = 1/8, v = 0` is `sqrt(6 ln 2) >= 2`. -/
theorem boxMuller_eighth : 2 ≤ boxMuller (1 / 8) 0 := by
  unfold boxMuller
  have hv : 2 * Real.pi * (((0 : ℚ)) : ℝ) = 0 := by push_cast; ring
  rw [hv, Real.cos_zero, mul_one]
  have h8 : (((1 : ℚ) / 8 : ℚ) : ℝ) = 1 / 8 := by push_cast; ring
  rw [h8]
  have hlog : Real.log ((1 : ℝ) / 8) = -(3 * Real.log 2) := by
    rw [Real.log_div one_ne_zero (by norm_num), Real.log_one,
      show (8 : ℝ) = 2 ^ 3 by norm_num, Real.log_pow]
    push_cast
    ring
  rw [hlog, show -2 * -(3 * Real.log 2) = 6 * Real.log 2 by ring]
  have h2 : (0.6931471803 : ℝ) < Real.log 2 := Real.log_two_gt_d9
  rw [Real.le_sqrt (by norm_num) (by nlinarith)]
  nlinarith

/-- Sampling when every normal draw of the trial evaluates to the same
value `z`: each sample is the clamped `base + z * std`. -/
theorem sampleVars_z_const (nf : ℚ → ℚ → K) (g : ℕ → ℚ) (z : K) :
    ∀ (vars : List (String × VarConfig K)) (pos : ℕ),
      (∀ k, k < vars.length → nf (g (pos + 2 * k)) (g (pos + 2 * k + 1)) = z) →
      sampleVars nf g vars pos
        = (vars.map (fun p => (p.1, max p.2.min (min p.2.max
            (p.2.base + z * ((p.2.max - p.2.min) / 4))))), pos + 2 * vars.length) := by
  intro vars
  induction vars with
  | nil => intro pos h; simp [sampleVars]
  | cons v rest ih =>
    intro pos h
    obtain ⟨name, c⟩ := v
    have h0 : nf (g pos) (g (pos + 1)) = z := by
      have := h 0 (by simp)
      simpa using this
    have hrest := ih (pos + 2) ?_
    · simp only [sampleVars, h0, hrest, List.map_cons, List.length_cons, Prod.mk.injEq]
      exact ⟨trivial, by ring⟩
    · intro k hk
      have hh := h (k + 1) (by simp only [List.length_cons]; omega)
      have heq : pos + 2 * (k + 1) = pos + 2 + 2 * k := by ring
      rw [heq] at hh
      exact hh

/-- The variable set of the C7 counterexample: the zero-spread variable
`salary` first, then four more zero-spread variables and the spread
variable `avg_project_value`. -/
def varsC7tail : List (String × VarConfig ℝ) :=
  [("benefits_multiplier", { base := 1, min := 1, max := 1 }),
   ("utilization_rate", { base := 1, min := 1, max := 1 }),
   ("ramp_up_discount", { base := 1, min := 1, max := 1 }),
   ("project_win_rate", { base := 1, min := 1, max := 1 }),
   ("avg_project_value", { base := 2, min := 0, max := 4 })]

def varsC7 : List (String × VarConfig ℝ) :=
  ("salary", { base := 100, min := 100, max := 100 }) :: varsC7tail

/-- Base statistics fed to the analyzer, with mean `100`. -/
def baseC7 : Stats ℝ :=
  { mean := 100, median := 100, p10 := 100, p90 := 100, prob_positive := 1 }

/-- In the low segment every trial of `varsC7` samples the bases. -/
theorem sampleVars_C7_low {k : ℕ} (hk : 12 * k + 12 ≤ 60000) :
    sampleVars boxMuller gC7 varsC7 (12 * k)
      = ([("salary", (100 : ℝ)), ("benefits_multiplier", 1), ("utilization_rate", 1),
          ("ramp_up_discount", 1), ("project_win_rate", 1), ("avg_project_value", 2)],
         12 * k + 12) := by
  have h := sampleVars_z_const boxMuller gC7 (0 : ℝ) varsC7 (12 * k) ?_
  · rw [h]
    simp only [Prod.mk.injEq]
    constructor
    · simp only [varsC7, varsC7tail, List.map_cons, List.map_nil]
      norm_num [min_def, max_def]
    · simp [varsC7, varsC7tail]
  · intro j hj
    simp [varsC7, varsC7tail] at hj
    have hodd : (12 * k + 2 * j + 1) % 2 = 1 := by omega
    have hlt : 12 * k + 2 * j + 1 < 60000 := by omega
    rw [gC7_low_odd hodd hlt, boxMuller_quarter]

/-- In the high segment every trial of `varsC7` pushes the spread
variable to its maximum. -/
theorem sampleVars_C7_high (k : ℕ) :
    sampleVars boxMuller gC7 varsC7 (60000 + 12 * k)
      = ([("salary", (100 : ℝ)), ("benefits_multiplier", 1), ("utilization_rate", 1),
          ("ramp_up_discount", 1), ("project_win_rate", 1), ("avg_project_value", 4)],
         60000 + 12 * k + 12) := by
  have h := sampleVars_z_const boxMuller gC7 (boxMuller (1 / 8) 0)
    varsC7 (60000 + 12 * k) ?_
  · rw [h]
    have hz2 : (2 : ℝ) ≤ boxMuller (1 / 8) 0 := boxMuller_eighth
    simp only [Prod.mk.injEq]
    constructor
    · simp only [varsC7, varsC7tail, List.map_cons, List.map_nil]
      have hapv : max (0 : ℝ) (min 4 (2 + boxMuller (1 / 8) 0 * ((4 - 0) / 4))) = 4 := by
        rw [show ((4 : ℝ) - 0) / 4 = 1 by norm_num, mul_one,
          min_eq_left (by linarith), max_eq_right (by linarith)]
      rw [hapv]
      norm_num [min_def, max_def]
    · simp [varsC7, varsC7tail]
  · intro j hj
    have heven : (60000 + 12 * k + 2 * j) % 2 = 0 := by omega
    have hodd : (60000 + 12 * k + 2 * j + 1) % 2 = 1 := by omega
    rw [gC7_high_even heven (by omega), gC7_high_odd hodd (by omega)]


theorem hiringOutcome_C7_low :
    hiringOutcome [("salary", (100 : ℝ)), ("benefits_multiplier", 1),
      ("utilization_rate", 1), ("ramp_up_discount", 1), ("project_win_rate", 1),
      ("avg_project_value", 2)] = -60 := by
  simp [hiringOutcome, List.lookup]
  norm_num

theorem hiringOutcome_C7_high :
    hiringOutcome [("salary", (100 : ℝ)), ("benefits_multiplier", 1),
      ("utilization_rate", 1), ("ramp_up_discount", 1), ("project_win_rate", 1),
      ("avg_project_value", 4)] = -20 := by
  simp [hiringOutcome, List.lookup]
  norm_num

theorem runTrials_C7_low :
    ∀ (n k : ℕ), 12 * k + 12 * n ≤ 60000 →
      runTrials boxMuller gC7 varsC7 n (12 * k)
        = (List.replicate n ((-60 : ℝ)), 12 * k + 12 * n) := by
  intro n
  induction n with
  | zero => intro k h; simp [runTrials]
  | succ m ih =>
    intro k h
    have hs := sampleVars_C7_low (k := k) (by omega)
    have hrest := ih (k + 1) (by omega)
    have hpos : 12 * k + 12 = 12 * (k + 1) := by ring
    simp only [runTrials, hs, hiringOutcome_C7_low, hpos, hrest,
      List.replicate_succ, Prod.mk.injEq]
    exact ⟨trivial, by ring⟩

theorem runTrials_C7_high :
    ∀ (n k : ℕ),
      runTrials boxMuller gC7 varsC7 n (60000 + 12 * k)
        = (List.replicate n ((-20 : ℝ)), 60000 + 12 * k + 12 * n) := by
  intro n
  induction n with
  | zero => intro k; simp [runTrials]
  | succ m ih =>
    intro k
    have hs := sampleVars_C7_high k
    have hrest := ih (k + 1)
    have hpos : 60000 + 12 * k + 12 = 60000 + 12 * (k + 1) := by ring
    simp only [runTrials, hs, hiringOutcome_C7_high, hpos, hrest,
      List.replicate_succ, Prod.mk.injEq]
    exact ⟨trivial, by ring⟩

theorem runSimulation_C7_low_mean :
    (runSimulation boxMuller gC7 varsC7 5000 0).1.mean = -60 := by
  have h := runTrials_C7_low 5000 0 (by norm_num)
  rw [show (12 : ℕ) * 0 = 0 from rfl] at h
  simp only [runSimulation, h]
  rw [List.sum_replicate, nsmul_eq_mul]
  norm_num

theorem runSimulation_C7_low_pos :
    (runSimulation boxMuller gC7 varsC7 5000 0).2 = 60000 := by
  have h := runTrials_C7_low 5000 0 (by norm_num)
  rw [show (12 : ℕ) * 0 = 0 from rfl] at h
  simp only [runSimulation, h]

theorem runSimulation_C7_high_mean :
    (runSimulation boxMuller gC7 varsC7 5000 60000).1.mean = -20 := by
  have h := runTrials_C7_high 5000 0
  rw [show 60000 + 12 * 0 = 60000 from rfl] at h
  simp only [runSimulation, h]
  rw [List.sum_replicate, nsmul_eq_mul]
  norm_num

/-- The salary scenario lists equal `varsC7` itself (its base already
sits at the shared bound `100`). -/
theorem setBase_C7_salary : setBase varsC7 "salary" (100 : ℝ) = varsC7 := by
  simp [setBase, varsC7, varsC7tail]

/-- Counterexample for C7: in the sensitivity analysis of `varsC7`
under the real Box-Muller engine and the admissible uniform stream
`gC7`, the first variable `salary` has `min = max = base = 100` (zero
spread) yet its row carries `impact_percent = 40`, not `0`: its two
scenario runs consume fresh draws for the spread variable
`avg_project_value` and land on different means. -/
theorem claim_C7_counterexample :
    (varsC7.head?.map (fun p => (p.1, p.2.min, p.2.max, p.2.base)))
      = some ("salary", (100 : ℝ), 100, 100) ∧
    ((sensitivityRows boxMuller gC7 varsC7 baseC7 varsC7 0).1.head?.map
      (fun r => (r.varName, r.impact_percent))) = some ("salary", (40 : ℝ)) ∧
    (40 : ℝ) ≠ 0 := by
  refine ⟨rfl, ?_, by norm_num⟩
  have hrows : (sensitivityRows boxMuller gC7 varsC7 baseC7 varsC7 0).1
      = { varName := "salary", base := (100 : ℝ), min := 100, max := 100,
          outcome_at_low :=
            (runSimulation boxMuller gC7 (setBase varsC7 "salary" 100) 5000 0).1.mean,
          outcome_at_high :=
            (runSimulation boxMuller gC7 (setBase varsC7 "salary" 100) 5000
              (runSimulation boxMuller gC7 (setBase varsC7 "salary" 100) 5000 0).2).1.mean,
          impact_percent :=
            |((runSimulation boxMuller gC7 (setBase varsC7 "salary" 100) 5000
                (runSimulation boxMuller gC7 (setBase varsC7 "salary" 100) 5000 0).2).1.mean
              - (runSimulation boxMuller gC7 (setBase varsC7 "salary" 100) 5000 0).1.mean)
              / baseC7.mean * 100| }
        :: (sensitivityRows boxMuller gC7 varsC7 baseC7 varsC7tail
            (runSimulation boxMuller gC7 (setBase varsC7 "salary" 100) 5000
              (runSimulation boxMuller gC7 (setBase varsC7 "salary" 100) 5000 0).2).2).1 := rfl
  rw [hrows]
  simp only [List.head?_cons, Option.map_some']
  rw [setBase_C7_salary, runSimulation_C7_low_pos, runSimulation_C7_low_mean,
    runSimulation_C7_high_mean]
  have : |((-20 : ℝ) - -60) / baseC7.mean * 100| = 40 := by
    rw [show baseC7.mean = (100 : ℝ) from rfl]
    rw [abs_of_nonneg (by norm_num)]
    norm_num
  rw [this]

end Affective
